import Mathlib

/-!
A shallow embedding of the `llama` telemetry library (files
`llama/sample_chunker.py` and `llama/influxdb.py`) and proofs about it.

Modelling conventions:
* The asyncio event loop is modelled by an explicit operation trace: an
  `Op` is either a `push` call, a `get_new` registration, or the firing of
  the bin timer (`call_later` callback `_timeout_elapsed`).
* `asyncio.Future` objects are identified by freshly allocated natural
  numbers (`nextFut` counter); `f.set_result(value)` is the trace event
  `Event.resolve f value`.
* The injected `bin_finished` callback invocation is the trace event
  `Event.binFinished contents`; timer handles are generation numbers, with
  `Event.timerCancel`/`Event.timerSchedule` recording `cancel()` and
  `loop.call_later`.
* A failed Python `assert` is modelled by `Option.none` (the operation
  raises instead of returning).
* Python truthiness tests (`if not self._last_point`, `if not
  args.influxdb_endpoint`) are modelled by explicit falsiness functions.
* Scalar values in an InfluxDB point are modelled by their default Python
  string rendering; wall-clock instants (`time.time()`, float seconds) are
  modelled as exact rationals, with Python `round` (banker's rounding)
  modelled by `pyRound`.
-/

namespace Llama

namespace SampleChunker

/-- The mutable state of a `SampleChunker` instance: the fields set in
`__init__` (`self._points`, `self._last_point`, `self._waiting_for_values`,
`self._timeout`), plus a fresh-future counter for modelling `Future()`
allocation. -/
structure ChunkerState (T : Type) where
  name : String
  target_bin_size : Nat
  points : List T
  last_point : Option T
  waiting_for_values : List Nat
  nextFut : Nat
  timerGen : Nat
deriving Repr, DecidableEq

/-- Observable side effects of the chunker: timer manipulation, the
`bin_finished` callback, the "no data" debug log, and resolving a waiting
future with a value. -/
inductive Event (T : Type) where
  | timerCancel (gen : Nat)
  | binFinished (contents : List T)
  | timerSchedule (gen : Nat)
  | emptyBinLogged
  | resolve (fut : Nat) (v : T)
deriving Repr, DecidableEq

/-- `SampleChunker.__init__`: empty bin, no last point, no waiters, and an
initial `_schedule_timeout()` (timer generation 0 is scheduled). -/
def initChunker (T : Type) (name : String) (target_bin_size : Nat) :
    ChunkerState T :=
  { name := name
    target_bin_size := target_bin_size
    points := []
    last_point := none
    waiting_for_values := []
    nextFut := 0
    timerGen := 0 }

/-- `SampleChunker._finish_bin`: asserts the bin is non-empty (modelled by
`none` on violation), cancels the pending timer, invokes `bin_finished`
with the bin contents, replaces the bin by an empty one and schedules a
fresh timer. -/
def finish_bin {T : Type} (s : ChunkerState T) :
    Option (ChunkerState T × List (Event T)) :=
  if s.points.isEmpty then
    none
  else
    some ({ s with points := [], timerGen := s.timerGen + 1 },
      [Event.timerCancel s.timerGen,
       Event.binFinished s.points,
       Event.timerSchedule (s.timerGen + 1)])

/-- `SampleChunker.push`: appends the value to the current bin, records it
as the last point, flushes when the bin length equals `target_bin_size`,
then resolves every waiting future with the value and clears the waiter
list. -/
def push {T : Type} (s : ChunkerState T) (v : T) :
    Option (ChunkerState T × List (Event T)) :=
  let s1 : ChunkerState T :=
    { s with points := s.points ++ [v], last_point := some v }
  match (if s1.points.length = s1.target_bin_size then finish_bin s1
         else some (s1, [])) with
  | none => none
  | some (s2, evs) =>
      some ({ s2 with waiting_for_values := [] },
        evs ++ s2.waiting_for_values.map (fun f => Event.resolve f v))

/-- `SampleChunker.get_new`: allocates a fresh future, appends it to
`_waiting_for_values`, and returns its identifier (the caller suspends on
it). -/
def get_new {T : Type} (s : ChunkerState T) : ChunkerState T × Nat :=
  ({ s with
      waiting_for_values := s.waiting_for_values ++ [s.nextFut]
      nextFut := s.nextFut + 1 },
   s.nextFut)

/-- What a `get_latest` call does before suspending: either it returns a
value immediately, or it registers a waiter (via `get_new`) and suspends
on it. -/
inductive GetLatestResult (T : Type) where
  | ret (v : T)
  | awaitNew (fut : Nat)
deriving Repr, DecidableEq

/-- `SampleChunker.get_latest`: `if not self._last_point: return await
self.get_new()`, else return `self._last_point`. The Python truthiness
test is modelled by `falsy`; `None` is always falsy. -/
def get_latest {T : Type} (falsy : T → Bool) (s : ChunkerState T) :
    ChunkerState T × GetLatestResult T :=
  match s.last_point with
  | none =>
      let r := get_new s
      (r.1, GetLatestResult.awaitNew r.2)
  | some v =>
      if falsy v then
        let r := get_new s
        (r.1, GetLatestResult.awaitNew r.2)
      else
        (s, GetLatestResult.ret v)

/-- Python truthiness for an integer measurement value: `0` is falsy
(`not 0` is true in Python). -/
def intFalsy (v : Int) : Bool := v == 0

/-- `SampleChunker._timeout_elapsed`: if the bin is non-empty, does
nothing (`pass`); otherwise logs the "No data for channel" debug message.
In both cases it then reschedules the timer. -/
def timeout_elapsed {T : Type} (s : ChunkerState T) :
    ChunkerState T × List (Event T) :=
  if s.points.isEmpty then
    ({ s with timerGen := s.timerGen + 1 },
     [Event.emptyBinLogged, Event.timerSchedule (s.timerGen + 1)])
  else
    ({ s with timerGen := s.timerGen + 1 },
     [Event.timerSchedule (s.timerGen + 1)])

/-- One event-loop interaction with the chunker: a `push` call, the
registration part of a `get_new` call, or the bin timer firing. -/
inductive Op (T : Type) where
  | push (v : T)
  | getNew
  | timerFires
deriving Repr, DecidableEq

/-- Execute one operation against the chunker state. -/
def step {T : Type} (s : ChunkerState T) :
    Op T → Option (ChunkerState T × List (Event T))
  | Op.push v => push s v
  | Op.getNew => some ((get_new s).1, [])
  | Op.timerFires => some (timeout_elapsed s)

/-- One executed operation in a trace: the state before, the operation,
the emitted events, and the state after. -/
structure TraceEntry (T : Type) where
  pre : ChunkerState T
  op : Op T
  evs : List (Event T)
  post : ChunkerState T
deriving Repr, DecidableEq

/-- Run a list of operations from a state, recording every step; `none`
as soon as an operation raises (assertion failure). -/
def traceFrom {T : Type} (s : ChunkerState T) :
    List (Op T) → Option (List (TraceEntry T))
  | [] => some []
  | op :: ops =>
      match step s op with
      | none => none
      | some (s2, evs) =>
          match traceFrom s2 ops with
          | none => none
          | some tr => some ({ pre := s, op := op, evs := evs, post := s2 } :: tr)

/-- Run a list of operations from a state, returning the final state and
all emitted events in order; `none` as soon as an operation raises
(assertion failure). -/
def runFrom {T : Type} (s : ChunkerState T) :
    List (Op T) → Option (ChunkerState T × List (Event T))
  | [] => some (s, [])
  | op :: ops =>
      match step s op with
      | none => none
      | some (s2, evs) =>
          match runFrom s2 ops with
          | none => none
          | some (s3, evs2) => some (s3, evs ++ evs2)

/-- All events of a trace, in order. -/
def allEvents {T : Type} (tr : List (TraceEntry T)) : List (Event T) :=
  (tr.map TraceEntry.evs).flatten

/-- The state after the last step of a trace (the start state for an empty
trace). -/
def finalState {T : Type} (s : ChunkerState T) (tr : List (TraceEntry T)) :
    ChunkerState T :=
  tr.getLast?.elim s TraceEntry.post

/-- The arguments of the `bin_finished` invocations among some events, in
order. -/
def flushesOf {T : Type} (evs : List (Event T)) : List (List T) :=
  evs.filterMap fun e =>
    match e with
    | Event.binFinished c => some c
    | _ => none

/-- The future resolutions among some events: pairs of future id and
resolved value, in order. -/
def resolvesOf {T : Type} (evs : List (Event T)) : List (Nat × T) :=
  evs.filterMap fun e =>
    match e with
    | Event.resolve f v => some (f, v)
    | _ => none

/-- How many times a given future is resolved in some events. -/
def resolveCount {T : Type} (fut : Nat) (evs : List (Event T)) : Nat :=
  (resolvesOf evs).countP (fun p => p.1 == fut)

/-- The consecutive complete `n`-blocks of a list, in order. -/
def fullChunks {T : Type} (n : Nat) (l : List T) : List (List T) :=
  if _h : 0 < n ∧ n ≤ l.length then
    l.take n :: fullChunks n (l.drop n)
  else
    []
termination_by l.length
decreasing_by simp only [List.length_drop]; omega

/-- What remains of a list after removing its complete `n`-blocks. -/
def fullRemainder {T : Type} (n : Nat) (l : List T) : List T :=
  if _h : 0 < n ∧ n ≤ l.length then
    fullRemainder n (l.drop n)
  else
    l
termination_by l.length
decreasing_by simp only [List.length_drop]; omega

end SampleChunker

namespace InfluxDB

/-- The two command-line arguments registered by `influxdb_args`, both
defaulting to `None`. -/
structure Args where
  influxdb_endpoint : Option String
  influxdb_tags : Option String
deriving Repr, DecidableEq

/-- Python truthiness of an optional string: `None` and the empty string
are falsy. -/
def pyStrFalsy : Option String → Bool
  | none => true
  | some s => s.isEmpty

/-- The constructor arguments stored by `InfluxDBPusher.__init__`
(`write_endpoint` and `tags`). -/
structure PusherConfig where
  write_endpoint : String
  tags : String
deriving Repr, DecidableEq

/-- `influxdb_pusher_from_args`: no endpoint configured means no pusher is
constructed (`ok none`); an endpoint without tags raises `ValueError`
(`error`); otherwise a pusher is constructed from endpoint and tags. -/
def influxdb_pusher_from_args (args : Args) :
    Except String (Option PusherConfig) :=
  if pyStrFalsy args.influxdb_endpoint then
    Except.ok none
  else if pyStrFalsy args.influxdb_tags then
    Except.error ("No InfluxDB tags set (--influxdb-tags). Refusing to " ++
      "push data to avoid later disambiguation/discoverability problems.")
  else
    Except.ok (some
      { write_endpoint := args.influxdb_endpoint.getD ""
        tags := args.influxdb_tags.getD "" })

/-- One enqueued data point: `(field, values, time.time())` as stored by
`InfluxDBPusher.push`. Values carry their default string rendering;
the capture instant is in seconds. -/
structure DeliveryPoint where
  field : String
  stats : List (String × String)
  timestamp : ℚ
deriving Repr, DecidableEq

/-- The state of an `InfluxDBPusher`: its immutable configuration and the
contents of `self._queue` (an `asyncio.Queue` of maxsize 128). -/
structure PusherState where
  write_endpoint : String
  tags : String
  queue : List DeliveryPoint
deriving Repr, DecidableEq

/-- The queue capacity fixed in `InfluxDBPusher.__init__`:
`asyncio.Queue(128, ...)`. -/
def queueMaxsize : Nat := 128

/-- `InfluxDBPusher.__init__`: stores endpoint and tags and creates an
empty bounded queue. -/
def initPusher (write_endpoint : String) (tags : String) : PusherState :=
  { write_endpoint := write_endpoint, tags := tags, queue := [] }

/-- The outcome of `InfluxDBPusher.push`: either the point was enqueued,
or the queue was full, the point was dropped and a warning was logged. -/
inductive PushOutcome where
  | enqueued
  | droppedQueueFull (warning : String)
deriving Repr, DecidableEq

/-- `InfluxDBPusher.push`: `put_nowait((field, values, time.time()))`;
`asyncio.QueueFull` (raised exactly when the queue already holds
`maxsize` items) is caught and turned into a warning naming the field and
the destination. The caller never blocks and never sees an error. -/
def pusher_push (s : PusherState) (fld : String)
    (stats : List (String × String)) (now : ℚ) : PusherState × PushOutcome :=
  if s.queue.length < queueMaxsize then
    ({ s with queue := s.queue ++
        [{ field := fld, stats := stats, timestamp := now }] },
     PushOutcome.enqueued)
  else
    (s, PushOutcome.droppedQueueFull
      ("Error pushing \'" ++ fld ++ "\' to " ++ s.write_endpoint ++
       ": Queue full; dropping point (network connection or server " ++
       "down/slow?)"))

/-- Python 3 `round` on an exact rational: round to nearest, ties to
even. -/
def pyRound (q : ℚ) : ℤ :=
  let f : ℤ := Rat.floor q
  let r : ℚ := q - f
  if r < 1/2 then f
  else if 1/2 < r then f + 1
  else if f % 2 = 0 then f else f + 1

/-- The `",".join("{}={}".format(k, v) ...)` step of `InfluxDBPusher.run`:
renders the value mapping as `k1=v1,k2=v2,...` in insertion order. -/
def serialize_values (stats : List (String × String)) : String :=
  String.intercalate "," (stats.map (fun kv => kv.1 ++ "=" ++ kv.2))

/-- The body built by `InfluxDBPusher.run` for one dequeued point:
`"{},{} {} {}".format(field, tags, values, round(timestamp * 1e9))`. -/
def serialize_point (tags : String) (p : DeliveryPoint) : String :=
  p.field ++ "," ++ tags ++ " " ++ serialize_values p.stats ++ " " ++
    toString (pyRound (p.timestamp * 1000000000))

/-- What the HTTP POST of one drain iteration comes back with: a response
(status and body) or a raised transport error (connection failure etc.). -/
inductive TransportResult where
  | response (status : Nat) (body : String)
  | transportError (msg : String)
deriving Repr, DecidableEq

/-- How one iteration of the `run` loop ends: the loop proceeds to the
next point (possibly after logging a warning), or an exception propagates
out of `run`, terminating the background task. -/
inductive IterOutcome where
  | nextPoint (warning : Option String)
  | crashed (msg : String)
deriving Repr, DecidableEq

/-- One iteration of `InfluxDBPusher.run` after a point has been dequeued,
given the outcome of the POST. The body of the loop has no exception
handler, so a raised transport error propagates out of `run` (modelled by
`crashed`); a response with a status other than 204 is logged (with the
stripped response body) and the loop continues; a 204 response continues
silently. -/
def run_iteration (s : PusherState) (p : DeliveryPoint)
    (tr : TransportResult) : IterOutcome :=
  let body := serialize_point s.tags p
  match tr with
  | TransportResult.transportError msg => IterOutcome.crashed msg
  | TransportResult.response status rbody =>
      if status ≠ 204 then
        IterOutcome.nextPoint (some
          ("Error pushing \'" ++ body ++ "\' to " ++ s.write_endpoint ++
           " (HTTP " ++ toString status ++ "): " ++ rbody.trim))
      else
        IterOutcome.nextPoint none

end InfluxDB

namespace SampleChunker

theorem push_eq_flush {T : Type} (s : ChunkerState T) (v : T)
    (h : s.points.length + 1 = s.target_bin_size) :
    push s v = some
      ({ s with
          points := []
          last_point := some v
          waiting_for_values := []
          timerGen := s.timerGen + 1 },
       [Event.timerCancel s.timerGen,
        Event.binFinished (s.points ++ [v]),
        Event.timerSchedule (s.timerGen + 1)] ++
         s.waiting_for_values.map (fun f => Event.resolve f v)) := by
  simp [push, finish_bin, h]

theorem push_eq_noflush {T : Type} (s : ChunkerState T) (v : T)
    (h : s.points.length + 1 ≠ s.target_bin_size) :
    push s v = some
      ({ s with
          points := s.points ++ [v]
          last_point := some v
          waiting_for_values := [] },
       s.waiting_for_values.map (fun f => Event.resolve f v)) := by
  simp [push, h]

theorem traceFrom_cons {T : Type} {s s2 : ChunkerState T} {op : Op T}
    {evs : List (Event T)} (ops : List (Op T))
    (h : step s op = some (s2, evs)) :
    traceFrom s (op :: ops) =
      (traceFrom s2 ops).map
        (fun tr => { pre := s, op := op, evs := evs, post := s2 } :: tr) := by
  simp only [traceFrom, h]
  cases traceFrom s2 ops <;> rfl

theorem allEvents_nil {T : Type} : allEvents ([] : List (TraceEntry T)) = [] := rfl

theorem allEvents_cons {T : Type} (e : TraceEntry T) (tr : List (TraceEntry T)) :
    allEvents (e :: tr) = e.evs ++ allEvents tr := by
  simp [allEvents]

theorem flushesOf_append {T : Type} (a b : List (Event T)) :
    flushesOf (a ++ b) = flushesOf a ++ flushesOf b := by
  simp [flushesOf, List.filterMap_append]

theorem flushesOf_resolves {T : Type} (l : List Nat) (v : T) :
    flushesOf (l.map (fun f => Event.resolve f v)) = [] := by
  simp [flushesOf, List.filterMap_map]

theorem resolvesOf_append {T : Type} (a b : List (Event T)) :
    resolvesOf (a ++ b) = resolvesOf a ++ resolvesOf b := by
  simp [resolvesOf, List.filterMap_append]

theorem resolvesOf_resolves {T : Type} (l : List Nat) (v : T) :
    resolvesOf (l.map (fun f => Event.resolve f v)) = l.map (fun f => (f, v)) := by
  induction l with
  | nil => rfl
  | cons f l ih => simpa [resolvesOf, List.filterMap_cons] using ih

theorem fullChunks_stop {T : Type} {n : Nat} {l : List T}
    (h : ¬(0 < n ∧ n ≤ l.length)) : fullChunks n l = [] := by
  rw [fullChunks, dif_neg h]

theorem fullChunks_step {T : Type} {n : Nat} {l : List T}
    (h : 0 < n ∧ n ≤ l.length) :
    fullChunks n l = l.take n :: fullChunks n (l.drop n) := by
  rw [fullChunks, dif_pos h]

theorem fullRemainder_stop {T : Type} {n : Nat} {l : List T}
    (h : ¬(0 < n ∧ n ≤ l.length)) : fullRemainder n l = l := by
  rw [fullRemainder, dif_neg h]

theorem fullRemainder_step {T : Type} {n : Nat} {l : List T}
    (h : 0 < n ∧ n ≤ l.length) :
    fullRemainder n l = fullRemainder n (l.drop n) := by
  rw [fullRemainder, dif_pos h]

theorem fullChunks_append {T : Type} {n : Nat} {a : List T} (b : List T)
    (h : a.length = n) (h0 : 0 < n) :
    fullChunks n (a ++ b) = a :: fullChunks n b := by
  subst h
  rw [fullChunks_step ⟨h0, by simp⟩, List.take_left, List.drop_left]

theorem fullRemainder_append {T : Type} {n : Nat} {a : List T} (b : List T)
    (h : a.length = n) (h0 : 0 < n) :
    fullRemainder n (a ++ b) = fullRemainder n b := by
  subst h
  rw [fullRemainder_step ⟨h0, by simp⟩, List.drop_left]

theorem fullChunks_flatten_aux {T : Type} :
    ∀ (k n : Nat) (l : List T), l.length ≤ k →
      (fullChunks n l).flatten ++ fullRemainder n l = l := by
  intro k
  induction k with
  | zero =>
      intro n l hl
      have hnil : l = [] := List.eq_nil_of_length_eq_zero (by omega)
      subst hnil
      by_cases h : 0 < n ∧ n ≤ ([] : List T).length
      · simp at h; omega
      · rw [fullChunks_stop h, fullRemainder_stop h]; rfl
  | succ k ih =>
      intro n l hl
      by_cases h : 0 < n ∧ n ≤ l.length
      · rw [fullChunks_step h, fullRemainder_step h]
        simp only [List.flatten_cons, List.append_assoc]
        rw [ih n (l.drop n) (by simp only [List.length_drop]; omega)]
        exact List.take_append_drop n l
      · rw [fullChunks_stop h, fullRemainder_stop h]; rfl

theorem fullChunks_flatten {T : Type} (n : Nat) (l : List T) :
    (fullChunks n l).flatten ++ fullRemainder n l = l :=
  fullChunks_flatten_aux l.length n l le_rfl

theorem runFrom_cons {T : Type} {s s2 : ChunkerState T} {op : Op T}
    {evs : List (Event T)} (ops : List (Op T))
    (h : step s op = some (s2, evs)) :
    runFrom s (op :: ops) =
      (runFrom s2 ops).map (fun r => (r.1, evs ++ r.2)) := by
  simp only [runFrom, h]
  cases hr : runFrom s2 ops with
  | none => rfl
  | some r => cases r; rfl

theorem pushRun_spec {T : Type} :
    ∀ (vs : List T) (s : ChunkerState T),
      s.points.length < s.target_bin_size →
      ∃ s3 evs, runFrom s (vs.map Op.push) = some (s3, evs) ∧
        flushesOf evs = fullChunks s.target_bin_size (s.points ++ vs) ∧
        s3.points = fullRemainder s.target_bin_size (s.points ++ vs) ∧
        s3.target_bin_size = s.target_bin_size := by
  intro vs
  induction vs with
  | nil =>
      intro s hs
      refine ⟨s, [], rfl, ?_, ?_, rfl⟩
      · rw [fullChunks_stop (by simp; omega)]; rfl
      · rw [fullRemainder_stop (by simp; omega)]; simp
  | cons v rest ih =>
      intro s hs
      have hsplit : s.points ++ v :: rest = (s.points ++ [v]) ++ rest := by simp
      by_cases hc : s.points.length + 1 = s.target_bin_size
      · have hR1 : fullChunks s.target_bin_size (s.points ++ v :: rest) =
            (s.points ++ [v]) :: fullChunks s.target_bin_size rest := by
          rw [hsplit]; exact fullChunks_append rest (by simp; omega) (by omega)
        have hR2 : fullRemainder s.target_bin_size (s.points ++ v :: rest) =
            fullRemainder s.target_bin_size rest := by
          rw [hsplit]; exact fullRemainder_append rest (by simp; omega) (by omega)
        obtain ⟨s3, evs2, hrun, hfl, hrem, htgt⟩ :=
          ih { s with
                points := []
                last_point := some v
                waiting_for_values := []
                timerGen := s.timerGen + 1 }
            (show 0 < s.target_bin_size by omega)
        refine ⟨s3, _,
          by rw [List.map_cons,
                runFrom_cons _ (show step s (Op.push v) = _ from push_eq_flush s v hc),
                hrun]; rfl,
          ?_, ?_, ?_⟩
        · rw [flushesOf_append, flushesOf_append, flushesOf_resolves, hfl, hR1]
          rfl
        · rw [hR2]; exact hrem
        · exact htgt
      · have hR1 : fullChunks s.target_bin_size ((s.points ++ [v]) ++ rest) =
            fullChunks s.target_bin_size (s.points ++ v :: rest) := by rw [hsplit]
        have hR2 : fullRemainder s.target_bin_size ((s.points ++ [v]) ++ rest) =
            fullRemainder s.target_bin_size (s.points ++ v :: rest) := by rw [hsplit]
        obtain ⟨s3, evs2, hrun, hfl, hrem, htgt⟩ :=
          ih { s with
                points := s.points ++ [v]
                last_point := some v
                waiting_for_values := [] }
            (show (s.points ++ [v]).length < s.target_bin_size by simp; omega)
        refine ⟨s3, _,
          by rw [List.map_cons,
                runFrom_cons _ (show step s (Op.push v) = _ from push_eq_noflush s v hc),
                hrun]; rfl,
          ?_, ?_, ?_⟩
        · rw [flushesOf_append, flushesOf_resolves, ← hR1]
          exact hfl
        · rw [← hR2]; exact hrem
        · exact htgt

theorem flushesOf_flush_events {T : Type} (g : Nat) (c : List T) (l : List Nat)
    (v : T) :
    flushesOf ([Event.timerCancel g, Event.binFinished c,
        Event.timerSchedule (g + 1)] ++
      l.map (fun f => Event.resolve f v)) = [c] := by
  rw [flushesOf_append, flushesOf_resolves]
  rfl

theorem step_total {T : Type} (s : ChunkerState T) (op : Op T) :
    ∃ s2 evs, step s op = some (s2, evs) ∧ ∀ c ∈ flushesOf evs, c ≠ [] := by
  cases op with
  | push v =>
      by_cases hc : s.points.length + 1 = s.target_bin_size
      · refine ⟨_, _, show step s (Op.push v) = _ from push_eq_flush s v hc, ?_⟩
        intro c hcm
        rw [flushesOf_flush_events] at hcm
        simp only [List.mem_singleton] at hcm
        subst hcm
        simp
      · refine ⟨_, _, show step s (Op.push v) = _ from push_eq_noflush s v hc, ?_⟩
        intro c hcm
        rw [flushesOf_resolves] at hcm
        simp at hcm
  | getNew =>
      refine ⟨(get_new s).1, [], rfl, ?_⟩
      intro c hcm
      simp [flushesOf] at hcm
  | timerFires =>
      refine ⟨(timeout_elapsed s).1, (timeout_elapsed s).2, rfl, ?_⟩
      intro c hcm
      unfold timeout_elapsed at hcm
      split at hcm <;> simp [flushesOf] at hcm

theorem runFrom_total {T : Type} :
    ∀ (ops : List (Op T)) (s : ChunkerState T),
      ∃ s3 evs, runFrom s ops = some (s3, evs) ∧
        ∀ c ∈ flushesOf evs, c ≠ [] := by
  intro ops
  induction ops with
  | nil =>
      intro s
      exact ⟨s, [], rfl, by intro c hcm; simp [flushesOf] at hcm⟩
  | cons op ops ih =>
      intro s
      obtain ⟨s2, evs, hstep, hne⟩ := step_total s op
      obtain ⟨s3, evs2, hrun, hne2⟩ := ih s2
      refine ⟨s3, evs ++ evs2, by rw [runFrom_cons _ hstep, hrun]; rfl, ?_⟩
      intro c hcm
      rw [flushesOf_append] at hcm
      rcases List.mem_append.mp hcm with h | h
      exacts [hne c h, hne2 c h]

theorem mem_traceFrom {T : Type} :
    ∀ {ops : List (Op T)} {s : ChunkerState T} {tr : List (TraceEntry T)},
      traceFrom s ops = some tr →
      ∀ e ∈ tr, step e.pre e.op = some (e.post, e.evs) := by
  intro ops
  induction ops with
  | nil =>
      intro s tr h e he
      simp only [traceFrom, Option.some.injEq] at h
      subst h
      simp at he
  | cons op ops ih =>
      intro s tr h e he
      cases hstep : step s op with
      | none =>
          rw [show traceFrom s (op :: ops) = none by
                simp only [traceFrom, hstep]] at h
          exact absurd h (by simp)
      | some p =>
          obtain ⟨s2, evs⟩ := p
          rw [traceFrom_cons ops hstep] at h
          cases htr : traceFrom s2 ops with
          | none => rw [htr] at h; exact absurd h (by simp)
          | some tr2 =>
              rw [htr] at h
              have h2 : ({ pre := s, op := op, evs := evs, post := s2 } :
                  TraceEntry T) :: tr2 = tr := Option.some.inj h
              subst h2
              rcases List.mem_cons.mp he with he | he
              · subst he; exact hstep
              · exact ih htr e he

theorem push_resolves {T : Type} {s s2 : ChunkerState T} {v : T}
    {evs : List (Event T)} (h : push s v = some (s2, evs)) :
    resolvesOf evs = s.waiting_for_values.map (fun f => (f, v)) ∧
    s2.waiting_for_values = [] ∧ s2.nextFut = s.nextFut := by
  by_cases hc : s.points.length + 1 = s.target_bin_size
  · rw [push_eq_flush s v hc] at h
    simp only [Option.some.injEq, Prod.mk.injEq] at h
    obtain ⟨h1, h2⟩ := h
    subst h1
    subst h2
    refine ⟨?_, rfl, rfl⟩
    rw [resolvesOf_append, resolvesOf_resolves]
    rfl
  · rw [push_eq_noflush s v hc] at h
    simp only [Option.some.injEq, Prod.mk.injEq] at h
    obtain ⟨h1, h2⟩ := h
    subst h1
    subst h2
    exact ⟨resolvesOf_resolves _ v, rfl, rfl⟩

theorem traceFrom_cons_elim {T : Type} {s : ChunkerState T} {op : Op T}
    {ops : List (Op T)} {tr : List (TraceEntry T)}
    (h : traceFrom s (op :: ops) = some tr) :
    ∃ s2 evs tr2, step s op = some (s2, evs) ∧ traceFrom s2 ops = some tr2 ∧
      tr = { pre := s, op := op, evs := evs, post := s2 } :: tr2 := by
  cases hstep : step s op with
  | none =>
      rw [show traceFrom s (op :: ops) = none by
            simp only [traceFrom, hstep]] at h
      exact absurd h (by simp)
  | some p =>
      obtain ⟨s2, evs⟩ := p
      rw [traceFrom_cons ops hstep] at h
      cases htr : traceFrom s2 ops with
      | none => rw [htr] at h; exact absurd h (by simp)
      | some tr2 =>
          rw [htr] at h
          exact ⟨s2, evs, tr2, rfl, htr, (Option.some.inj h).symm⟩

theorem timeout_elapsed_fst {T : Type} (s : ChunkerState T) :
    (timeout_elapsed s).1 = { s with timerGen := s.timerGen + 1 } := by
  unfold timeout_elapsed
  split <;> rfl

theorem resolvesOf_timeout {T : Type} (s : ChunkerState T) :
    resolvesOf (timeout_elapsed s).2 = [] := by
  unfold timeout_elapsed
  split <;> rfl

theorem resolveCount_append {T : Type} (fut : Nat) (a b : List (Event T)) :
    resolveCount fut (a ++ b) = resolveCount fut a + resolveCount fut b := by
  simp [resolveCount, resolvesOf_append, List.countP_append]

theorem resolveCount_of_map {T : Type} (fut : Nat) {evs : List (Event T)}
    {l : List Nat} {v : T} (h : resolvesOf evs = l.map (fun f => (f, v))) :
    resolveCount fut evs = l.count fut := by
  simp only [resolveCount, h, List.countP_map]
  rfl

theorem resolveCount_nil {T : Type} (fut : Nat) (evs : List (Event T))
    (h : resolvesOf evs = []) : resolveCount fut evs = 0 := by
  simp [resolveCount, h]

theorem resolveCount_bound {T : Type} :
    ∀ (ops : List (Op T)) (s : ChunkerState T) (tr : List (TraceEntry T)),
      s.waiting_for_values.Nodup →
      (∀ f ∈ s.waiting_for_values, f < s.nextFut) →
      traceFrom s ops = some tr →
      ∀ fut, resolveCount fut (allEvents tr) ≤
        (if fut ∈ s.waiting_for_values ∨ s.nextFut ≤ fut then 1 else 0) := by
  intro ops
  induction ops with
  | nil =>
      intro s tr _ _ h fut
      simp only [traceFrom, Option.some.injEq] at h
      subst h
      rw [allEvents_nil, resolveCount_nil fut [] rfl]
      split <;> omega
  | cons op ops ih =>
      intro s tr hnd hlt h fut
      obtain ⟨s2, evs, tr2, hstep, htr, htreq⟩ := traceFrom_cons_elim h
      subst htreq
      rw [allEvents_cons]
      simp only
      rw [resolveCount_append]
      cases op with
      | push v =>
          obtain ⟨hres, hw2, hnf⟩ :=
            push_resolves (show push s v = some (s2, evs) from hstep)
          rw [resolveCount_of_map fut hres]
          have ihb := ih s2 tr2 (by rw [hw2]; exact List.nodup_nil)
            (by rw [hw2]; intro f hf; simp at hf) htr fut
          rw [hw2, hnf] at ihb
          simp only [List.not_mem_nil, false_or] at ihb
          by_cases hm : fut ∈ s.waiting_for_values
          · have hcnt : s.waiting_for_values.count fut ≤ 1 :=
              List.nodup_iff_count_le_one.mp hnd fut
            have hflt : fut < s.nextFut := hlt fut hm
            rw [if_neg (by omega)] at ihb
            rw [if_pos (Or.inl hm)]
            omega
          · rw [List.count_eq_zero_of_not_mem hm]
            by_cases hc2 : s.nextFut ≤ fut
            · rw [if_pos hc2] at ihb
              rw [if_pos (Or.inr hc2)]
              omega
            · rw [if_neg hc2] at ihb
              rw [if_neg (by
                intro hcon
                rcases hcon with hcon | hcon
                · exact hm hcon
                · exact hc2 hcon)]
              omega
      | getNew =>
          have hpair := Option.some.inj hstep
          have hs2 : s2 = (get_new s).1 := (congrArg Prod.fst hpair).symm
          have hevs : evs = [] := (congrArg Prod.snd hpair).symm
          subst hs2
          subst hevs
          rw [resolveCount_nil fut [] rfl]
          have hnotin : s.nextFut ∉ s.waiting_for_values :=
            fun hmem => absurd (hlt _ hmem) (by omega)
          have hnd2 : (s.waiting_for_values ++ [s.nextFut]).Nodup := by
            rw [List.nodup_append]
            exact ⟨hnd, List.nodup_singleton _,
              by intro f hf hf1; simp at hf1; subst hf1; exact hnotin hf⟩
          have hlt2 : ∀ f ∈ s.waiting_for_values ++ [s.nextFut],
              f < s.nextFut + 1 := by
            intro f hf
            rcases List.mem_append.mp hf with hf | hf
            · have := hlt f hf; omega
            · simp at hf; omega
          have ihb : resolveCount fut (allEvents tr2) ≤
              (if fut ∈ s.waiting_for_values ++ [s.nextFut] ∨
                  s.nextFut + 1 ≤ fut then 1 else 0) :=
            ih (get_new s).1 tr2 hnd2 hlt2 htr fut
          by_cases hg : fut ∈ s.waiting_for_values ∨ s.nextFut ≤ fut
          · rw [if_pos hg]
            split at ihb <;> omega
          · push_neg at hg
            rw [if_neg (by
              intro hcon
              rcases hcon with hcon | hcon
              · exact hg.1 hcon
              · omega)]
            rw [if_neg (by
              intro hcon
              rcases hcon with hcon | hcon
              · rcases List.mem_append.mp hcon with hcon | hcon
                · exact hg.1 hcon
                · simp at hcon; omega
              · omega)] at ihb
            omega
      | timerFires =>
          have hpair := Option.some.inj hstep
          have hfst : (timeout_elapsed s).1 = s2 := congrArg Prod.fst hpair
          have hsnd : (timeout_elapsed s).2 = evs := congrArg Prod.snd hpair
          have hs2 : s2 = { s with timerGen := s.timerGen + 1 } :=
            hfst.symm.trans (timeout_elapsed_fst s)
          have hevs : resolveCount fut evs = 0 :=
            resolveCount_nil fut evs (by rw [← hsnd]; exact resolvesOf_timeout s)
          subst hs2
          rw [hevs]
          have ihb : resolveCount fut (allEvents tr2) ≤
              (if fut ∈ s.waiting_for_values ∨ s.nextFut ≤ fut then 1 else 0) :=
            ih { s with timerGen := s.timerGen + 1 } tr2 hnd hlt htr fut
          omega

theorem step_resolve_src {T : Type} {s s2 : ChunkerState T} {op : Op T}
    {evs : List (Event T)} (h : step s op = some (s2, evs)) :
    ∀ fv ∈ resolvesOf evs,
      fv.1 ∈ s.waiting_for_values ∧ op = Op.push fv.2 := by
  cases op with
  | push v =>
      intro fv hfv
      obtain ⟨hres, -, -⟩ :=
        push_resolves (show push s v = some (s2, evs) from h)
      rw [hres] at hfv
      simp only [List.mem_map] at hfv
      obtain ⟨f, hf, rfl⟩ := hfv
      exact ⟨hf, rfl⟩
  | getNew =>
      intro fv hfv
      have hpair := Option.some.inj h
      have hsnd : ([] : List (Event T)) = evs := congrArg Prod.snd hpair
      rw [← hsnd] at hfv
      exact absurd hfv (by simp [resolvesOf])
  | timerFires =>
      intro fv hfv
      have hpair := Option.some.inj h
      have hsnd : (timeout_elapsed s).2 = evs := congrArg Prod.snd hpair
      rw [← hsnd] at hfv
      rw [resolvesOf_timeout] at hfv
      exact absurd hfv (by simp)

/-- C9: for every chunker with positive target size and every interleaving
of pushes, waiter registrations and timer firings, no operation ever hits
the `Cannot finish empty bin` assertion, and `bin_finished` is never
invoked on an empty bin. -/
theorem C9_empty_bin_assertion_unreachable (T : Type) (name : String)
    (N : Nat) (_hN : 0 < N) (ops : List (Op T)) :
    ∃ s3 evs, runFrom (initChunker T name N) ops = some (s3, evs) ∧
      ∀ c ∈ flushesOf evs, c ≠ [] :=
  runFrom_total ops (initChunker T name N)

theorem C9_witness :
    ∃ s3 evs,
      runFrom (initChunker Int "ch" 1) [Op.push 7, Op.timerFires] =
        some (s3, evs) ∧
      ∀ c ∈ flushesOf evs, c ≠ [] :=
  C9_empty_bin_assertion_unreachable Int "ch" 1 (by decide)
    [Op.push 7, Op.timerFires]

/-- C4: a chunker with positive target size `N`, fed only pushes, invokes
`bin_finished` exactly on every `N`-th push, with exactly the consecutive
`N`-blocks of the pushed values in push order; the leftover values remain
in the bin. -/
theorem C4_size_threshold_flush_exact (T : Type) (name : String) (N : Nat)
    (vs : List T) (hN : 0 < N) :
    ∃ s3 evs,
      runFrom (initChunker T name N) (vs.map Op.push) = some (s3, evs) ∧
      flushesOf evs = fullChunks N vs ∧
      s3.points = fullRemainder N vs ∧
      (flushesOf evs).flatten ++ s3.points = vs := by
  obtain ⟨s3, evs, hrun, hfl, hrem, htgt⟩ :=
    pushRun_spec vs (initChunker T name N) (show 0 < N from hN)
  refine ⟨s3, evs, hrun, hfl, hrem, ?_⟩
  rw [hfl, hrem]
  exact fullChunks_flatten N vs

theorem C4_witness :
    ∃ s3 evs,
      runFrom (initChunker Int "ch" 2) ([1, 2, 3].map Op.push) =
        some (s3, evs) ∧
      flushesOf evs = fullChunks 2 [1, 2, 3] ∧
      s3.points = fullRemainder 2 [1, 2, 3] ∧
      (flushesOf evs).flatten ++ s3.points = [1, 2, 3] :=
  C4_size_threshold_flush_exact Int "ch" 2 [1, 2, 3] (by decide)

/-- C10: a push that reaches the size threshold performs the flush
(callback invocation, bin replacement) strictly before resolving any
pending `get_new` waiter, so a waiter resolved by a flushing push observes
the fresh empty bin. -/
theorem C10_flush_before_waiter_resolution {T : Type} (s : ChunkerState T)
    (v : T) (h : s.points.length + 1 = s.target_bin_size) :
    ∃ s2 evs1 evs2, push s v = some (s2, evs1 ++ evs2) ∧
      flushesOf evs1 = [s.points ++ [v]] ∧
      resolvesOf evs1 = [] ∧
      evs2 = s.waiting_for_values.map (fun f => Event.resolve f v) ∧
      flushesOf evs2 = [] ∧
      s2.points = [] :=
  ⟨_, _, _, push_eq_flush s v h, rfl, rfl, rfl, flushesOf_resolves _ v, rfl⟩

theorem C10_witness :
    ∃ s2 evs1 evs2,
      push { name := "ch", target_bin_size := 2, points := [(1 : Int)],
             last_point := some 1, waiting_for_values := [0], nextFut := 1,
             timerGen := 0 } 2 = some (s2, evs1 ++ evs2) ∧
      flushesOf evs1 = [[1] ++ [2]] ∧
      resolvesOf evs1 = [] ∧
      evs2 = [0].map (fun f => Event.resolve f (2 : Int)) ∧
      flushesOf evs2 = [] ∧
      s2.points = [] :=
  C10_flush_before_waiter_resolution
    { name := "ch", target_bin_size := 2, points := [(1 : Int)],
      last_point := some 1, waiting_for_values := [0], nextFut := 1,
      timerGen := 0 } 2 (by decide)

/-- C5: in any trace, each push resolves exactly the waiters registered
before it, with that pushed value, and empties the waiter set; resolutions
only ever go to previously registered waiters, by a push carrying that
value; and every waiter is resolved at most once over the whole trace. -/
theorem C5_waiters_resolved_exactly_once (T : Type) (name : String)
    (N : Nat) (ops : List (Op T)) (tr : List (TraceEntry T))
    (h : traceFrom (initChunker T name N) ops = some tr) :
    (∀ e ∈ tr, ∀ v : T, e.op = Op.push v →
       resolvesOf e.evs = e.pre.waiting_for_values.map (fun f => (f, v)) ∧
       e.post.waiting_for_values = []) ∧
    (∀ e ∈ tr, ∀ fv ∈ resolvesOf e.evs,
       fv.1 ∈ e.pre.waiting_for_values ∧ e.op = Op.push fv.2) ∧
    (∀ fut : Nat, resolveCount fut (allEvents tr) ≤ 1) := by
  refine ⟨?_, ?_, ?_⟩
  · intro e he v hop
    have hstep := mem_traceFrom h e he
    rw [hop] at hstep
    obtain ⟨h1, h2, -⟩ :=
      push_resolves (show push e.pre v = some (e.post, e.evs) from hstep)
    exact ⟨h1, h2⟩
  · intro e he fv hfv
    exact step_resolve_src (mem_traceFrom h e he) fv hfv
  · intro fut
    have hb := resolveCount_bound ops (initChunker T name N) tr
      List.nodup_nil (by intro f hf; simp [initChunker] at hf) h fut
    simpa [initChunker] using hb

theorem C5_witness :
    resolveCount 0 (allEvents ((traceFrom (initChunker Int "ch" 2)
        [Op.getNew, Op.push 5]).getD [])) ≤ 1 :=
  (C5_waiters_resolved_exactly_once Int "ch" 2 [Op.getNew, Op.push 5] _
    (by rfl)).2.2 0

/-- C1 (refuting evaluation): with `target_bin_size = 3`, after pushing one
value the bin is non-empty, yet a firing of the bin timer invokes no
`bin_finished` callback and leaves the bin contents in place — the code
only reschedules the timer. -/
theorem C1_timeout_on_nonempty_bin_never_flushes :
    (runFrom (initChunker Int "ch" 3) [Op.push 1, Op.timerFires]).map
        (fun r => (flushesOf r.2, r.1.points, r.2)) =
      some ([], [1], [Event.timerSchedule 1]) := by decide

/-- C3 (refuting evaluation): after `push(0)` a value has been pushed
(`last_point = some 0`), yet `get_latest` does not return it: because
`0` is falsy in Python, `if not self._last_point` is taken and the call
registers a waiter and suspends like `get_new`. -/
theorem C3_get_latest_after_falsy_push_suspends :
    ((push (initChunker Int "ch" 3) 0).map (fun r =>
        (r.1.last_point,
         (get_latest intFalsy r.1).2,
         (get_latest intFalsy r.1).1.waiting_for_values))) =
      some (some 0, GetLatestResult.awaitNew 0, [0]) := by decide

end SampleChunker

namespace InfluxDB

/-- C2 (refuting evaluation): one iteration of the drain loop has no
exception handler, so any raised transport error propagates and terminates
`run`; only a non-success HTTP status is caught as a logged warning after
which the loop continues. -/
theorem C2_run_loop_crashes_on_transport_error :
    (∀ (s : PusherState) (p : DeliveryPoint) (msg : String),
        run_iteration s p (TransportResult.transportError msg) =
          IterOutcome.crashed msg) ∧
    (∀ (s : PusherState) (p : DeliveryPoint) (rbody : String),
        run_iteration s p (TransportResult.response 500 rbody) =
          IterOutcome.nextPoint (some
            ("Error pushing \'" ++ serialize_point s.tags p ++ "\' to " ++
             s.write_endpoint ++ " (HTTP " ++ toString (500 : Nat) ++
             "): " ++ rbody.trim))) ∧
    (∀ (s : PusherState) (p : DeliveryPoint) (rbody : String),
        run_iteration s p (TransportResult.response 204 rbody) =
          IterOutcome.nextPoint none) :=
  ⟨fun _ _ _ => rfl, fun _ _ _ => rfl, fun _ _ _ => rfl⟩

/-- C6: `push` on the metric pusher is total (never raises to the caller,
never blocks): the queue capacity is 128, a push on a full queue drops the
point with a warning naming the field and the destination and leaves the
queue unchanged, a push on a non-full queue appends the point, and the
capacity is never exceeded. -/
theorem C6_push_never_blocks_never_overflows :
    queueMaxsize = 128 ∧
    ∀ (s : PusherState) (fld : String) (stats : List (String × String))
        (now : ℚ),
      s.queue.length ≤ queueMaxsize →
      ((pusher_push s fld stats now).1.queue.length ≤ queueMaxsize ∧
       (s.queue.length < queueMaxsize →
          pusher_push s fld stats now =
            ({ s with queue := s.queue ++
                [{ field := fld, stats := stats, timestamp := now }] },
             PushOutcome.enqueued)) ∧
       (s.queue.length = queueMaxsize →
          pusher_push s fld stats now =
            (s, PushOutcome.droppedQueueFull
              ("Error pushing \'" ++ fld ++ "\' to " ++ s.write_endpoint ++
               ": Queue full; dropping point (network connection or server " ++
               "down/slow?)")))) := by
  refine ⟨rfl, ?_⟩
  intro s fld stats now hle
  by_cases hlt : s.queue.length < queueMaxsize
  · refine ⟨?_, fun _ => ?_, fun heq => absurd heq (by omega)⟩
    · unfold pusher_push
      rw [if_pos hlt]
      simp only [List.length_append, List.length_cons, List.length_nil]
      omega
    · unfold pusher_push
      rw [if_pos hlt]
  · refine ⟨?_, fun hc => absurd hc hlt, fun _ => ?_⟩
    · unfold pusher_push
      rw [if_neg hlt]
      exact hle
    · unfold pusher_push
      rw [if_neg hlt]

theorem C6_witness :
    (pusher_push (initPusher "http://h" "t=1") "temp" [("value", "42")]
        0).1.queue.length ≤ queueMaxsize :=
  ((C6_push_never_blocks_never_overflows.2
      (initPusher "http://h" "t=1") "temp" [("value", "42")] 0
      (by decide))).1

theorem pyRound_intCast (m : ℤ) : pyRound ((m : ℚ)) = m := by
  have h : Rat.floor ((m : ℚ)) = m := by
    rw [Rat.floor_def']
    simp
  unfold pyRound
  rw [h]
  norm_num

/-- C7: each dequeued point is serialized as the single line
`<field>,<tags> <k1>=<v1>,... <timestamp_ns>`, the timestamp being the
capture instant converted to integer nanoseconds; in particular the
`temp`/`loc=lab1`/`value=42` example yields exactly the expected line. -/
theorem C7_wire_line_format :
    (∀ (tags : String) (p : DeliveryPoint),
       serialize_point tags p =
         p.field ++ "," ++ tags ++ " " ++
           String.intercalate ","
             (p.stats.map (fun kv => kv.1 ++ "=" ++ kv.2)) ++ " " ++
           toString (pyRound (p.timestamp * 1000000000))) ∧
    (∀ n : ℤ, pyRound ((n : ℚ) * 1000000000) = n * 1000000000) ∧
    serialize_point "loc=lab1"
        { field := "temp", stats := [("value", "42")],
          timestamp := 1234567890 } =
      "temp,loc=lab1 value=42 1234567890000000000" := by
  refine ⟨fun tags p => rfl, ?_, ?_⟩
  · intro n
    have hcast : ((n : ℚ) * 1000000000) = ((n * 1000000000 : ℤ) : ℚ) := by
      push_cast
      ring
    rw [hcast, pyRound_intCast]
  · have h1 : ((1234567890 : ℚ) * 1000000000) =
        ((1234567890000000000 : ℤ) : ℚ) := by norm_num
    calc serialize_point "loc=lab1"
          { field := "temp", stats := [("value", "42")],
            timestamp := 1234567890 }
        = "temp,loc=lab1 value=42 " ++
            toString (pyRound ((1234567890 : ℚ) * 1000000000)) := rfl
      _ = "temp,loc=lab1 value=42 " ++
            toString ((1234567890000000000 : ℤ)) := by
          rw [h1, pyRound_intCast]
      _ = "temp,loc=lab1 value=42 1234567890000000000" := by decide

/-- C8: construction from configuration yields no pusher exactly when no
endpoint is configured, and raises the tags `ValueError` exactly when an
endpoint is configured without tags. -/
theorem C8_construction_cases (args : Args) :
    (influxdb_pusher_from_args args = Except.ok none ↔
      pyStrFalsy args.influxdb_endpoint = true) ∧
    ((∃ e, influxdb_pusher_from_args args = Except.error e) ↔
      (pyStrFalsy args.influxdb_endpoint = false ∧
       pyStrFalsy args.influxdb_tags = true)) := by
  unfold influxdb_pusher_from_args
  by_cases h1 : pyStrFalsy args.influxdb_endpoint = true <;>
    by_cases h2 : pyStrFalsy args.influxdb_tags = true <;>
      simp [h1, h2]

end InfluxDB

end Llama
